import Mathlib

/-!
Shallow embedding of the model-selection and recognition code of the
AIND-Recognizer repository (src/my_model_selectors.py, src/my_recognizer.py).

Python floats are modelled as rationals extended with the IEEE special
values that the code actually manipulates: negative infinity is the
failure sentinel, positive infinity the initial BIC minimum, and NaN
arises from the mean of an empty list.  The external trainer/scorer
(hmmlearn GaussianHMM fit/score) is an opaque capability modelled as a
function returning an Option: none models a raised exception.
-/

set_option linter.unusedVariables false

/-- Word identifiers are strings (keys of the corpora and model maps). -/
abbrev Word := String

/-- Extended value modelling the Python floats manipulated by the code. -/
inductive XVal : Type where
  | nan : XVal
  | pinf : XVal
  | ninf : XVal
  | fin : ℚ → XVal
deriving DecidableEq

namespace XVal

/-- IEEE-style strict greater-than on extended values: any comparison
involving NaN is false. -/
def gt : XVal → XVal → Bool
  | nan, _ => false
  | _, nan => false
  | pinf, pinf => false
  | pinf, _ => true
  | ninf, _ => false
  | fin _, pinf => false
  | fin _, ninf => true
  | fin q, fin r => decide (r < q)

/-- IEEE-style strict less-than, the mirror of `gt`. -/
def lt (a b : XVal) : Bool := gt b a

/-- IEEE-style addition (as used when summing a list of scores). -/
def add : XVal → XVal → XVal
  | nan, _ => nan
  | _, nan => nan
  | pinf, ninf => nan
  | ninf, pinf => nan
  | pinf, _ => pinf
  | _, pinf => pinf
  | ninf, _ => ninf
  | _, ninf => ninf
  | fin q, fin r => fin (q + r)

/-- IEEE-style subtraction (used by the DIC formula). -/
def sub : XVal → XVal → XVal
  | nan, _ => nan
  | _, nan => nan
  | pinf, pinf => nan
  | ninf, ninf => nan
  | pinf, _ => pinf
  | ninf, _ => ninf
  | fin _, pinf => ninf
  | fin _, ninf => pinf
  | fin q, fin r => fin (q - r)

/-- Sum of a list of extended values, starting from 0 as numpy does. -/
def sum (l : List XVal) : XVal := l.foldl add (fin 0)

/-- Division by a natural number (the length of a nonempty list). -/
def divNat : XVal → ℕ → XVal
  | _, 0 => nan
  | nan, _ => nan
  | pinf, _ => pinf
  | ninf, _ => ninf
  | fin q, k => fin (q / (k : ℚ))

/-- Mean of a list of extended values; numpy's mean of an empty list is NaN. -/
def mean (l : List XVal) : XVal :=
  if l.isEmpty then nan else divNat (sum l) l.length

end XVal

/-- First-match association lookup, modelling a Python dict read (the keys
written by the code are pairwise distinct, so first-match agrees with the
dict semantics). -/
def alookup {A B : Type} [DecidableEq A] (k : A) : List (A × B) → Option B
  | [] => none
  | e :: rest => if e.1 = k then some e.2 else alookup k rest

/-- The list of integers produced by Python `range(lo, hi + 1)`. -/
def rangeL (lo hi : ℕ) : List ℕ := List.range' lo (hi + 1 - lo)

/-- One comparison step of the running-best loops: replace the accumulator
exactly when the candidate strictly beats it under `cmp`. -/
def selStep {B : Type} (cmp : XVal → XVal → Bool) (acc c : XVal × B) : XVal × B :=
  if cmp c.1 acc.1 then c else acc

/-- Running-best fold shared by the BIC, DIC and CV search loops. -/
def runSel {B : Type} (cmp : XVal → XVal → Bool) (init : XVal × B)
    (l : List (XVal × B)) : XVal × B :=
  l.foldl (selStep cmp) init

/-! ## Recognizer (src/my_recognizer.py, `recognize`) -/

/-- Inner loop of `recognize` over the models map for one test item.
State: the score table built so far, the current best word, and the
current best probability (initially None and negative infinity). -/
def recItemLoop {I M : Type} (score : M → I → Option ℚ) (x : I) :
    List (Word × M) → List (Word × XVal) × Option Word × XVal →
    List (Word × XVal) × Option Word × XVal
  | [], st => st
  | wm :: rest, st =>
    recItemLoop score x rest
      (match score wm.2 x with
       | some s =>
         (st.1 ++ [(wm.1, XVal.fin s)],
          if (XVal.fin s).gt st.2.2 then (some wm.1, XVal.fin s) else st.2)
       | none => (st.1 ++ [(wm.1, XVal.ninf)], st.2))

/-- Score table and best guess of `recognize` for a single test item. -/
def recognizeItem {I M : Type} (score : M → I → Option ℚ)
    (models : List (Word × M)) (x : I) :
    List (Word × XVal) × Option Word × XVal :=
  recItemLoop score x models ([], none, XVal.ninf)

/-- The `recognize` function: per-item score tables and best guesses,
both ordered by the test set's iteration order. -/
def recognize {I M : Type} (score : M → I → Option ℚ)
    (models : List (Word × M)) (testSet : List I) :
    List (List (Word × XVal)) × List (Option Word) :=
  (testSet.map fun x => (recognizeItem score models x).1,
   testSet.map fun x => (recognizeItem score models x).2.1)

/-! ## SelectorConstant (src/my_model_selectors.py) -/

/-- Environment of `SelectorConstant`: the fallback state count and the
external trainer (`base_model`, which returns None on failure). -/
structure ConstEnv (M : Type) where
  n_constant : ℕ
  train : ℕ → Option M

/-- The `SelectorConstant.select` method. -/
def selectConst {M : Type} (env : ConstEnv M) : Option M :=
  env.train env.n_constant

/-! ## SelectorBIC (src/my_model_selectors.py) -/

/-- Environment of `SelectorBIC`: the candidate range, the fallback
constant, the word's concatenated feature matrix `X`, the external log
(np.log applied to a frame count), the trainer (`base_model`: None on
failure) and the scorer (`model.score` on the word's own data; none
models a raised exception). -/
structure BICEnv (M : Type) where
  minN : ℕ
  maxN : ℕ
  n_constant : ℕ
  X : List (List ℚ)
  log : ℕ → ℚ
  train : ℕ → Option M
  score : M → Option ℚ

/-- One iteration of the BIC search loop: None models the `except`
branch (training returned None, scoring raised, or `X[0]` raised on an
empty matrix); otherwise the candidate's BIC value and its model. -/
def bicStep {M : Type} (env : BICEnv M) (n : ℕ) : Option (XVal × Option M) :=
  match env.train n with
  | none => none
  | some m =>
    match env.score m with
    | none => none
    | some s =>
      match env.X.head? with
      | none => none
      | some row0 =>
        let p : ℚ := (n : ℚ) * ((n : ℚ) - 1) + 2 * (row0.length : ℚ) * (n : ℚ)
        some (XVal.fin (-2 * s + p * env.log env.X.length), some m)

/-- The surviving BIC candidates, in candidate order. -/
def bicCands {M : Type} (env : BICEnv M) : List (XVal × Option M) :=
  (rangeL env.minN env.maxN).filterMap (bicStep env)

/-- The `SelectorBIC.select` method: running minimum over the surviving
candidates starting from positive infinity, and the constant-model
fallback when no candidate survives. -/
def selectB {M : Type} (env : BICEnv M) : Option M :=
  match (runSel XVal.lt (XVal.pinf, none) (bicCands env)).2 with
  | some m => some m
  | none => env.train env.n_constant

/-! ## SelectorDIC (src/my_model_selectors.py) -/

/-- Environment of `SelectorDIC`: the corpus word list in iteration
order, the target word, the candidate range, the fallback constant, and
the external trainer and scorer applied to a word's full data. -/
structure DICEnv (M : Type) where
  words : List Word
  this_word : Word
  minN : ℕ
  maxN : ℕ
  n_constant : ℕ
  fit : Word → ℕ → Option M
  score : Word → M → Option ℚ

/-- The cross-word score cache: (word, n) to (model-or-None, score). -/
abbrev Cache (M : Type) := List ((Word × ℕ) × (Option M × XVal))

/-- One `try` body of `SelectorDIC.prepare`: fit then score a word at a
state count, recording (None, negative infinity) on any failure. -/
def trainEntry {M : Type} (env : DICEnv M) (w : Word) (n : ℕ) : Option M × XVal :=
  match env.fit w n with
  | none => (none, XVal.ninf)
  | some m =>
    match env.score w m with
    | none => (none, XVal.ninf)
    | some s => (some m, XVal.fin s)

/-- The fully populated cache built by `SelectorDIC.prepare`'s loops. -/
def prepareCache {M : Type} (env : DICEnv M) : Cache M :=
  (rangeL env.minN env.maxN).flatMap
    (fun n => env.words.map (fun w => ((w, n), trainEntry env w n)))

/-- The (word, n) pairs on which `prepare`'s loops invoke the trainer. -/
def prepKeys {M : Type} (env : DICEnv M) : List (Word × ℕ) :=
  (rangeL env.minN env.maxN).flatMap (fun n => env.words.map (fun w => (w, n)))

/-- The `SelectorDIC.prepare` method with the class variable
`SelectorDIC.result_dict` made explicit: returns the cache used and the
new value of the class variable (assigned inside the population loop,
hence left untouched when the loops run zero iterations). -/
def prepare {M : Type} (env : DICEnv M) (stored : Option (Cache M)) :
    Cache M × Option (Cache M) :=
  match stored with
  | some d => (d, some d)
  | none =>
    let d := prepareCache env
    (d, if d.isEmpty then none else some d)

/-- The other words of the corpus, in iteration order. -/
def dicOthers {M : Type} (env : DICEnv M) : List Word :=
  env.words.filter (fun w => w ≠ env.this_word)

/-- One iteration of the DIC search loop: None models the `except`
branch (a KeyError on the target's entry or on any other word's entry
inside the comprehension); otherwise the DIC value and the target's
cached model. -/
def dicStep {M : Type} (env : DICEnv M) (d : Cache M) (n : ℕ) :
    Option (XVal × Option M) :=
  match alookup (env.this_word, n) d with
  | none => none
  | some entry =>
    if (dicOthers env).all (fun w => (alookup (w, n) d).isSome) then
      let vals := (dicOthers env).filterMap (fun w =>
        match alookup (w, n) d with
        | some (some _, s) => some s
        | _ => none)
      some (XVal.sub entry.2 (XVal.mean vals), entry.1)
    else none

/-- The scores fed to the mean of the DIC formula at state count `n`:
the cached scores of the other words whose cache entry is not the
failure sentinel (its stored model is present). -/
def dicVals {M : Type} (env : DICEnv M) (d : Cache M) (n : ℕ) : List XVal :=
  (dicOthers env).filterMap (fun w =>
    match alookup (w, n) d with
    | some (some _, s) => some s
    | _ => none)

/-- The surviving DIC candidates, in candidate order. -/
def dicCands {M : Type} (env : DICEnv M) (d : Cache M) : List (XVal × Option M) :=
  (rangeL env.minN env.maxN).filterMap (dicStep env d)

/-- The `SelectorDIC.select` method with the class variable made
explicit.  Returns the selected model (None models a Python None
result), the new class-variable value, and the (word, n) pairs on which
this call invoked the trainer (cache population and, when no candidate
survives, the constant fallback `base_model(n_constant)`). -/
def selectDIC {M : Type} (env : DICEnv M) (stored : Option (Cache M)) :
    Option M × Option (Cache M) × List (Word × ℕ) :=
  let p := prepare env stored
  let prepCalls : List (Word × ℕ) := if stored.isSome then [] else prepKeys env
  match (runSel XVal.gt (XVal.ninf, none) (dicCands env p.1)).2 with
  | some m => (some m, p.2, prepCalls)
  | none =>
    (env.fit env.this_word env.n_constant, p.2,
     prepCalls ++ [(env.this_word, env.n_constant)])

/-! ## SelectorCV (src/my_model_selectors.py) -/

/-- Environment of `SelectorCV`: the word's sequence count, the
candidate range, the fallback constant, the external trainer and scorer
applied to index subsets of the word's sequences (combine_sequences is
folded into the capability), and the fallback trainer on the full data
(`base_model`). -/
structure CVEnv (M : Type) where
  nSeqs : ℕ
  minN : ℕ
  maxN : ℕ
  n_constant : ℕ
  fit : List ℕ → ℕ → Option M
  score : M → List ℕ → Option ℚ
  fallbackTrain : ℕ → Option M

/-- The contiguous (start, stop) index ranges of sklearn `KFold(k)` on
`m` samples without shuffling: the first `m mod k` folds have size
`m / k + 1`, the rest size `m / k`. -/
def kfoldRanges (k m : ℕ) : List (ℕ × ℕ) :=
  ((List.range k).foldl (fun acc i =>
    let sz := m / k + if i < m % k then 1 else 0
    (acc.1 ++ [(acc.2, acc.2 + sz)], acc.2 + sz)) (([] : List (ℕ × ℕ)), 0)).1

/-- Held-out (test) indices of one fold. -/
def testIdx (r : ℕ × ℕ) (m : ℕ) : List ℕ :=
  (List.range m).filter (fun j => decide (r.1 ≤ j ∧ j < r.2))

/-- Held-in (train) indices of one fold. -/
def trainIdx (r : ℕ × ℕ) (m : ℕ) : List ℕ :=
  (List.range m).filter (fun j => decide (¬ (r.1 ≤ j ∧ j < r.2)))

/-- The inner fold loop of `SelectorCV.select` at one candidate `n`:
threads the collected held-out scores `res`, the last value of the
`word_model` variable, and logs one trainer call per fold. -/
def cvFolds {M : Type} (env : CVEnv M) (n : ℕ) (wm0 : Option M) :
    List ℚ × Option M × List (List ℕ × ℕ) :=
  (kfoldRanges 3 env.nSeqs).foldl (fun acc r =>
    let acc2 := (acc.1, acc.2.1, acc.2.2 ++ [(trainIdx r env.nSeqs, n)])
    match env.fit (trainIdx r env.nSeqs) n with
    | none => acc2
    | some mdl =>
      match env.score mdl (testIdx r env.nSeqs) with
      | none => (acc2.1, some mdl, acc2.2.2)
      | some s => (acc2.1 ++ [s], some mdl, acc2.2.2)) ([], wm0, [])

/-- One iteration of the outer state-count loop of `SelectorCV.select`:
state is ((max_cv, max_model), word_model carry, trainer call log). -/
def cvStepN {M : Type} (env : CVEnv M)
    (st : (XVal × Option M) × Option M × List (List ℕ × ℕ)) (n : ℕ) :
    (XVal × Option M) × Option M × List (List ℕ × ℕ) :=
  let fr := cvFolds env n st.2.1
  let res := fr.1
  let wm := fr.2.1
  let calls := st.2.2 ++ fr.2.2
  if res.isEmpty then (st.1, wm, calls)
  else
    let avg := XVal.fin (res.sum / (res.length : ℚ))
    if XVal.gt avg st.1.1 then ((avg, wm), wm, calls) else (st.1, wm, calls)

/-- The outer loop of `SelectorCV.select`, with the `break` on a
sequence count below the fold count (the condition does not depend on
`n`, so the break abandons every remaining candidate). -/
def cvLoop {M : Type} (env : CVEnv M) :
    List ℕ → ((XVal × Option M) × Option M × List (List ℕ × ℕ)) →
    (XVal × Option M) × Option M × List (List ℕ × ℕ)
  | [], st => st
  | n :: rest, st =>
    if env.nSeqs < 3 then st
    else cvLoop env rest (cvStepN env st n)

/-- The `SelectorCV.select` method: returns the selected model (None
models a Python None result) and the trainer calls made by the search
loop. -/
def selectCV {M : Type} (env : CVEnv M) : Option M × List (List ℕ × ℕ) :=
  let st := cvLoop env (rangeL env.minN env.maxN) ((XVal.ninf, none), none, [])
  match st.1.2 with
  | some m => (some m, st.2.2)
  | none => (env.fallbackTrain env.n_constant, st.2.2)

/-! ## Derived, loop-free descriptions of the CV search (proved equal to
the loops below) -/

/-- Held-out scores collected at candidate `n` (folds whose fit and
score both succeeded), independent of the loop state. -/
def resOf {M : Type} (env : CVEnv M) (n : ℕ) : List ℚ :=
  (kfoldRanges 3 env.nSeqs).filterMap (fun r =>
    (env.fit (trainIdx r env.nSeqs) n).bind
      (fun mdl => env.score mdl (testIdx r env.nSeqs)))

/-- The value of the `word_model` variable after the folds of candidate
`n`, starting from its value `w0` before them: each successful fit
overwrites it, each failed fit leaves it. -/
def lastFitFrom {M : Type} (env : CVEnv M) (n : ℕ) (w0 : Option M) : Option M :=
  (kfoldRanges 3 env.nSeqs).foldl (fun w r =>
    match env.fit (trainIdx r env.nSeqs) n with
    | some m => some m
    | none => w) w0

/-- The last model fitted at candidate `n` (the value of the
`word_model` variable after the folds of `n`, when any fit succeeded). -/
def lastFitOf {M : Type} (env : CVEnv M) (n : ℕ) : Option M :=
  lastFitFrom env n none

/-- Surviving CV candidates (with their state count attached) of an
arbitrary candidate list: average held-out score and the model held by
`word_model` when the average is compared. -/
def cvCandsNL {M : Type} (env : CVEnv M) (l : List ℕ) : List (ℕ × XVal × Option M) :=
  l.filterMap (fun n =>
    if (resOf env n).isEmpty then none
    else some (n, XVal.fin ((resOf env n).sum / ((resOf env n).length : ℚ)),
               lastFitOf env n))

/-- Surviving CV candidates with their state count, over the configured
candidate range. -/
def cvCandsN {M : Type} (env : CVEnv M) : List (ℕ × XVal × Option M) :=
  cvCandsNL env (rangeL env.minN env.maxN)

/-- Surviving CV candidates of an arbitrary candidate list, as compared
by the running-maximum loop. -/
def cvCandsL {M : Type} (env : CVEnv M) (l : List ℕ) : List (XVal × Option M) :=
  (cvCandsNL env l).map (fun c => c.2)

/-- Surviving CV candidates as compared by the running-maximum loop. -/
def cvCands {M : Type} (env : CVEnv M) : List (XVal × Option M) :=
  (cvCandsN env).map (fun c => c.2)

/-- The value of the `word_model` variable after processing a list of
candidate state counts. -/
def cvWmAfter {M : Type} (env : CVEnv M) (l : List ℕ) (w0 : Option M) : Option M :=
  l.foldl (fun w n => lastFitFrom env n w) w0

/-- Trainer calls made by the folds of one candidate state count. -/
def cvCallsN {M : Type} (env : CVEnv M) (n : ℕ) : List (List ℕ × ℕ) :=
  (kfoldRanges 3 env.nSeqs).map (fun r => (trainIdx r env.nSeqs, n))

/-- Trainer calls made by the CV search over a given candidate list. -/
def cvCallsList {M : Type} (env : CVEnv M) (l : List ℕ) : List (List ℕ × ℕ) :=
  l.flatMap (fun n => (kfoldRanges 3 env.nSeqs).map (fun r => (trainIdx r env.nSeqs, n)))

/-! ## Concrete environments used by counterexamples and witnesses -/

/-- Scorer on which every model fails for every item. -/
def recFailScore : Unit → Unit → Option ℚ := fun _ _ => none

/-- A two-word models map (iteration order: "A" first). -/
def recFailModels : List (Word × Unit) := [("A", ()), ("B", ())]

/-- BIC environment on which every training attempt fails. -/
def bicFailEnv : BICEnv Unit :=
  { minN := 2, maxN := 3, n_constant := 3, X := [[0]], log := fun _ => 0,
    train := fun _ => none, score := fun _ => none }

/-- BIC environment with a rigged trainer and scorer: the model at state
count n scores n, so BIC(n) = n^2 + n is minimal at n = 2. -/
def bicWitEnv : BICEnv ℕ :=
  { minN := 2, maxN := 3, n_constant := 3, X := [[0, 1]], log := fun _ => 1,
    train := fun n => some n, score := fun m => some (m : ℚ) }

/-- DIC environment on which every training attempt fails. -/
def dicFailEnv : DICEnv Unit :=
  { words := ["A"], this_word := "A", minN := 2, maxN := 3, n_constant := 3,
    fit := fun _ _ => none, score := fun _ _ => none }

/-- DIC environment with a rigged trainer: the target word scores 10,
the other word 4, at the single candidate state count 2. -/
def dicWitEnv : DICEnv ℕ :=
  { words := ["A", "B"], this_word := "A", minN := 2, maxN := 2, n_constant := 3,
    fit := fun _ n => some n,
    score := fun w _ => some (if w = "A" then 10 else 4) }

/-- CV environment of a word with only two sequences (below the fold count). -/
def cvSmallEnv : CVEnv ℕ :=
  { nSeqs := 2, minN := 2, maxN := 4, n_constant := 3,
    fit := fun _ _ => some 1, score := fun _ _ => some 0,
    fallbackTrain := fun n => some n }

/-- CV environment with a rigged scorer that peaks at state count 3. -/
def cvWitEnv : CVEnv ℕ :=
  { nSeqs := 3, minN := 2, maxN := 3, n_constant := 3,
    fit := fun _ n => some n, score := fun m _ => some (m : ℚ),
    fallbackTrain := fun _ => none }

/-- CV environment on which every training attempt fails. -/
def cvFailEnv : CVEnv Unit :=
  { nSeqs := 5, minN := 2, maxN := 3, n_constant := 3,
    fit := fun _ _ => none, score := fun _ _ => none,
    fallbackTrain := fun _ => none }

/-- Constant-selector environment whose trainer fails. -/
def constFailEnv : ConstEnv Unit :=
  { n_constant := 3, train := fun _ => none }

/-! ## Order lemmas for the extended values -/

theorem XVal.gt_irrefl (a : XVal) : XVal.gt a a = false := by
  cases a <;> simp [XVal.gt]

theorem XVal.gt_trans (a b c : XVal) (h1 : XVal.gt a b = true)
    (h2 : XVal.gt b c = true) : XVal.gt a c = true := by
  cases a <;> cases b <;> cases c <;> simp_all [XVal.gt]
  exact lt_trans h2 h1

theorem XVal.lt_irrefl (a : XVal) : XVal.lt a a = false := XVal.gt_irrefl a

theorem XVal.lt_trans' (a b c : XVal) (h1 : XVal.lt a b = true)
    (h2 : XVal.lt b c = true) : XVal.lt a c = true := XVal.gt_trans c b a h2 h1

theorem XVal.gt_ninf_false (a : XVal) : XVal.gt XVal.ninf a = false := by
  cases a <;> simp [XVal.gt]


theorem XVal.gt_nan_false (a : XVal) : XVal.gt XVal.nan a = false := by
  cases a <;> simp [XVal.gt]

/-! ## Generic lemmas about the running-best fold -/

theorem runSel_cons {B : Type} (cmp : XVal → XVal → Bool) (init c : XVal × B)
    (cs : List (XVal × B)) :
    runSel cmp init (c :: cs) = runSel cmp (selStep cmp init c) cs := rfl

/-- The running-best fold either keeps its initial value (no candidate
ever beats it) or returns the first-encountered best candidate: the one
that strictly beat the running best of the candidates before it, with no
later candidate strictly beating it. -/
theorem runSel_cases {B : Type} (cmp : XVal → XVal → Bool) (l : List (XVal × B)) :
    ∀ init : XVal × B,
    (runSel cmp init l = init ∧ ∀ c ∈ l, cmp c.1 init.1 = false) ∨
    (∃ i, ∃ h : i < l.length, runSel cmp init l = l.get ⟨i, h⟩ ∧
      cmp (l.get ⟨i, h⟩).1 (runSel cmp init (l.take i)).1 = true ∧
      ∀ j, ∀ hj : j < l.length, i < j →
        cmp (l.get ⟨j, hj⟩).1 (l.get ⟨i, h⟩).1 = false) := by
  induction l with
  | nil =>
    intro init
    left
    exact ⟨rfl, by simp⟩
  | cons c cs ih =>
    intro init
    by_cases hc : cmp c.1 init.1 = true
    · have hsel : selStep cmp init c = c := by simp [selStep, hc]
      rcases ih (selStep cmp init c) with ⟨heq, hall⟩ | ⟨i, hi, heq, hbeat, haft⟩
      · right
        refine ⟨0, by simp, ?_, ?_, ?_⟩
        · rw [runSel_cons, heq, hsel]
          rfl
        · simpa [runSel] using hc
        · intro j hj hij
          cases j with
          | zero => omega
          | succ j' =>
            have hmem : cs.get ⟨j', by simpa using hj⟩ ∈ cs := List.get_mem _ _ _
            have hv := hall _ hmem
            rw [hsel] at hv
            simpa using hv
      · right
        refine ⟨i + 1, by simpa using Nat.succ_lt_succ hi, ?_, ?_, ?_⟩
        · rw [runSel_cons, heq]
          rfl
        · have htake : (c :: cs).take (i + 1) = c :: cs.take i := rfl
          rw [htake, runSel_cons]
          simpa using hbeat
        · intro j hj hij
          cases j with
          | zero => omega
          | succ j' =>
            have hv := haft j' (by simpa using hj) (by omega)
            simpa using hv
    · have hsel : selStep cmp init c = init := by simp [selStep, hc]
      rcases ih init with ⟨heq, hall⟩ | ⟨i, hi, heq, hbeat, haft⟩
      · left
        constructor
        · rw [runSel_cons, hsel, heq]
        · intro d hd
          rcases List.mem_cons.mp hd with h | h
          · subst h
            simpa using hc
          · exact hall d h
      · right
        refine ⟨i + 1, by simpa using Nat.succ_lt_succ hi, ?_, ?_, ?_⟩
        · rw [runSel_cons, hsel, heq]
          rfl
        · have htake : (c :: cs).take (i + 1) = c :: cs.take i := rfl
          rw [htake, runSel_cons, hsel]
          simpa using hbeat
        · intro j hj hij
          cases j with
          | zero => omega
          | succ j' =>
            have hv := haft j' (by simpa using hj) (by omega)
            simpa using hv

/-- No candidate strictly beats the result of the running-best fold, and
the result either strictly beats the initial value or is the initial
value (requires transitivity and irreflexivity of the comparison). -/
theorem runSel_notBeaten {B : Type} (cmp : XVal → XVal → Bool)
    (htr : ∀ a b c, cmp a b = true → cmp b c = true → cmp a c = true)
    (hirr : ∀ a, cmp a a = false) (l : List (XVal × B)) :
    ∀ init : XVal × B,
    (∀ c ∈ l, cmp c.1 (runSel cmp init l).1 = false) ∧
    (cmp (runSel cmp init l).1 init.1 = true ∨ runSel cmp init l = init) := by
  induction l with
  | nil => intro init; exact ⟨by simp, Or.inr rfl⟩
  | cons c cs ih =>
    intro init
    by_cases hc : cmp c.1 init.1 = true
    · have hsel : selStep cmp init c = c := by simp [selStep, hc]
      obtain ⟨ihA, ihB⟩ := ih c
      rw [runSel_cons, hsel]
      constructor
      · intro d hd
        rcases List.mem_cons.mp hd with h | h
        · subst h
          rcases ihB with hgt | heq
          · cases hdd : cmp d.1 (runSel cmp d cs).1 with
            | false => rfl
            | true =>
              have hcc := htr _ _ _ hdd hgt
              simp [hirr d.1] at hcc
          · rw [heq]
            exact hirr d.1
        · exact ihA d h
      · rcases ihB with hgt | heq
        · exact Or.inl (htr _ _ _ hgt hc)
        · rw [heq]
          exact Or.inl hc
    · have hsel : selStep cmp init c = init := by simp [selStep, hc]
      obtain ⟨ihA, ihB⟩ := ih init
      rw [runSel_cons, hsel]
      have hcF : cmp c.1 init.1 = false := by simpa using hc
      constructor
      · intro d hd
        rcases List.mem_cons.mp hd with h | h
        · subst h
          rcases ihB with hgt | heq
          · cases hdd : cmp d.1 (runSel cmp init cs).1 with
            | false => rfl
            | true =>
              have hcc := htr _ _ _ hdd hgt
              simp [hcF] at hcc
          · rw [heq]
            exact hcF
        · exact ihA d h
      · exact ihB

/-! ## Lemmas about the recognizer loop -/

/-- The score table built by the inner loop is the accumulated table
followed by one entry per word of the models map, in map order, with
negative infinity for each word whose model fails to score the item. -/
theorem recItemLoop_table {I M : Type} (score : M → I → Option ℚ) (x : I) :
    ∀ (models : List (Word × M)) (t : List (Word × XVal)) (b : Option Word × XVal),
    (recItemLoop score x models (t, b)).1 =
      t ++ models.map (fun wm => (wm.1,
        match score wm.2 x with
        | some s => XVal.fin s
        | none => XVal.ninf)) := by
  intro models
  induction models with
  | nil => intro t b; simp [recItemLoop]
  | cons wm rest ih =>
    intro t b
    cases hs : score wm.2 x with
    | none => simp [recItemLoop, hs, ih]
    | some s => simp [recItemLoop, hs, ih]

/-- When every model fails on the item, the loop leaves the best-word
state untouched and appends a negative-infinity entry per word. -/
theorem recItemLoop_allFail {I M : Type} (score : M → I → Option ℚ) (x : I) :
    ∀ (models : List (Word × M)) (t : List (Word × XVal)) (b : Option Word × XVal),
    (∀ wm ∈ models, score wm.2 x = none) →
    recItemLoop score x models (t, b) =
      (t ++ models.map (fun wm => (wm.1, XVal.ninf)), b) := by
  intro models
  induction models with
  | nil => intro t b h; simp [recItemLoop]
  | cons wm rest ih =>
    intro t b h
    have hwm : score wm.2 x = none := h wm (List.mem_cons_self _ _)
    have hrest : ∀ wm' ∈ rest, score wm'.2 x = none :=
      fun wm' hm => h wm' (List.mem_cons_of_mem _ hm)
    have hstep : recItemLoop score x (wm :: rest) (t, b) =
        recItemLoop score x rest (t ++ [(wm.1, XVal.ninf)], b) := by
      simp [recItemLoop, hwm]
    rw [hstep, ih _ _ hrest]
    simp

/-! ## Lemmas about the cache lookup and the DIC cache -/

theorem alookup_mem {A B : Type} [DecidableEq A] (k : A) :
    ∀ (l : List (A × B)) (b : B), alookup k l = some b → (k, b) ∈ l := by
  intro l
  induction l with
  | nil => intro b h; simp [alookup] at h
  | cons e rest ih =>
    intro b h
    by_cases he : e.1 = k
    · simp [alookup, he] at h
      exact List.mem_cons.mpr (Or.inl (by rw [← he, ← h]))
    · simp [alookup, he] at h
      exact List.mem_cons.mpr (Or.inr (ih b h))

theorem alookup_isSome {A B : Type} [DecidableEq A] (k : A) (b : B) :
    ∀ l : List (A × B), (k, b) ∈ l → (alookup k l).isSome = true := by
  intro l
  induction l with
  | nil => intro h; simp at h
  | cons e rest ih =>
    intro h
    by_cases he : e.1 = k
    · simp [alookup, he]
    · rcases List.mem_cons.mp h with h0 | h0
      · rw [← h0] at he
        simp at he
      · simpa [alookup, he] using ih h0

theorem alookup_graph {A B : Type} [DecidableEq A] (f : A → B) :
    ∀ l : List (A × B), (∀ e ∈ l, e.2 = f e.1) →
    ∀ k b, alookup k l = some b → b = f k := by
  intro l
  induction l with
  | nil => intro hg k b h; simp [alookup] at h
  | cons e rest ih =>
    intro hg k b h
    by_cases he : e.1 = k
    · simp [alookup, he] at h
      rw [← h, hg e (List.mem_cons_self _ _), he]
    · simp [alookup, he] at h
      exact ih (fun e' he' => hg e' (List.mem_cons_of_mem _ he')) k b h

theorem mem_prepareCache {M : Type} (env : DICEnv M) (w : Word) (n : ℕ)
    (hw : w ∈ env.words) (hn : n ∈ rangeL env.minN env.maxN) :
    ((w, n), trainEntry env w n) ∈ prepareCache env := by
  simp only [prepareCache, List.mem_flatMap, List.mem_map]
  exact ⟨n, hn, w, hw, rfl⟩

theorem prepareCache_graph {M : Type} (env : DICEnv M) :
    ∀ e ∈ prepareCache env, e.2 = trainEntry env e.1.1 e.1.2 := by
  intro e he
  simp only [prepareCache, List.mem_flatMap, List.mem_map] at he
  obtain ⟨n, hn, w, hw, he'⟩ := he
  rw [← he']

theorem prepareCache_key_mem {M : Type} (env : DICEnv M) (w : Word) (n : ℕ)
    (b : Option M × XVal) (h : ((w, n), b) ∈ prepareCache env) :
    w ∈ env.words ∧ n ∈ rangeL env.minN env.maxN := by
  simp only [prepareCache, List.mem_flatMap, List.mem_map] at h
  obtain ⟨n', hn', w', hw', he⟩ := h
  have hk : (w', n') = (w, n) := congrArg Prod.fst he
  have hw2 : w' = w := congrArg Prod.fst hk
  have hn2 : n' = n := congrArg Prod.snd hk
  subst hw2
  subst hn2
  exact ⟨hw', hn'⟩

theorem trainEntry_shape {M : Type} (env : DICEnv M) (w : Word) (n : ℕ) :
    trainEntry env w n = (none, XVal.ninf) ∨
    ∃ m s, trainEntry env w n = (some m, XVal.fin s) := by
  unfold trainEntry
  cases hf : env.fit w n with
  | none => exact Or.inl rfl
  | some m =>
    cases hs : env.score w m with
    | none => simp [hs]
    | some s => exact Or.inr ⟨m, s, by simp [hs]⟩

theorem alookup_prepareCache {M : Type} (env : DICEnv M) (w : Word) (n : ℕ)
    (b : Option M × XVal) (h : alookup (w, n) (prepareCache env) = some b) :
    b = trainEntry env w n := by
  have := alookup_graph (fun k : Word × ℕ => trainEntry env k.1 k.2)
    (prepareCache env) (prepareCache_graph env) (w, n) b h
  simpa using this

theorem alookup_prepareCache_isSome {M : Type} (env : DICEnv M) (w : Word) (n : ℕ)
    (hw : w ∈ env.words) (hn : n ∈ rangeL env.minN env.maxN) :
    (alookup (w, n) (prepareCache env)).isSome = true :=
  alookup_isSome _ _ _ (mem_prepareCache env w n hw hn)

theorem alookup_prepareCache_range {M : Type} (env : DICEnv M) (w : Word) (n : ℕ)
    (b : Option M × XVal) (h : alookup (w, n) (prepareCache env) = some b) :
    w ∈ env.words ∧ n ∈ rangeL env.minN env.maxN :=
  prepareCache_key_mem env w n b (alookup_mem _ _ _ h)

/-- When the target's entry is present in the populated cache, the DIC
loop body computes exactly the cached-score difference of the DIC
formula and carries the target's cached model. -/
theorem dicStep_prepare {M : Type} (env : DICEnv M) (n : ℕ)
    (entry : Option M × XVal)
    (h : alookup (env.this_word, n) (prepareCache env) = some entry) :
    dicStep env (prepareCache env) n =
      some (XVal.sub entry.2 (XVal.mean (dicVals env (prepareCache env) n)),
            entry.1) := by
  obtain ⟨hw, hn⟩ := alookup_prepareCache_range env _ _ _ h
  have hall : ((dicOthers env).all
      (fun w => (alookup (w, n) (prepareCache env)).isSome)) = true := by
    rw [List.all_eq_true]
    intro w hwo
    have hw' : w ∈ env.words := (List.mem_filter.mp hwo).1
    exact alookup_prepareCache_isSome env w n hw' hn
  simp [dicStep, h, hall, dicVals]

/-- Structure of a surviving DIC candidate: it comes from a state count
in the range whose target entry is present, and carries the target's
cached model and the DIC difference. -/
theorem dicCands_mem {M : Type} (env : DICEnv M) (d : Cache M)
    (c : XVal × Option M) (hc : c ∈ dicCands env d) :
    ∃ n, n ∈ rangeL env.minN env.maxN ∧ ∃ entry : Option M × XVal,
      alookup (env.this_word, n) d = some entry ∧
      c = (XVal.sub entry.2 (XVal.mean (dicVals env d n)), entry.1) := by
  simp only [dicCands, List.mem_filterMap] at hc
  obtain ⟨n, hn, hstep⟩ := hc
  refine ⟨n, hn, ?_⟩
  cases hl : alookup (env.this_word, n) d with
  | none =>
    have hd : dicStep env d n = none := by simp [dicStep, hl]
    rw [hd] at hstep
    cases hstep
  | some entry =>
    by_cases hall : ((dicOthers env).all
        (fun w => (alookup (w, n) d).isSome)) = true
    · have hd : dicStep env d n =
          some (XVal.sub entry.2 (XVal.mean (dicVals env d n)), entry.1) := by
        simp [dicStep, hl, hall, dicVals]
      rw [hd] at hstep
      exact ⟨entry, rfl, (Option.some.inj hstep).symm⟩
    · have hd : dicStep env d n = none := by simp [dicStep, hl, hall]
      rw [hd] at hstep
      cases hstep

/-! ## Lemmas about the CV search loop -/

/-- The fold over the folds of one candidate, from an arbitrary starting
state: the collected scores are the successful folds' held-out scores,
the `word_model` variable is updated by each successful fit, and one
trainer call is logged per fold. -/
theorem cvFolds_general {M : Type} (env : CVEnv M) (n : ℕ) :
    ∀ (rs : List (ℕ × ℕ)) (res0 : List ℚ) (w0 : Option M)
      (cs0 : List (List ℕ × ℕ)),
    rs.foldl (fun acc r =>
      let acc2 := (acc.1, acc.2.1, acc.2.2 ++ [(trainIdx r env.nSeqs, n)])
      match env.fit (trainIdx r env.nSeqs) n with
      | none => acc2
      | some mdl =>
        match env.score mdl (testIdx r env.nSeqs) with
        | none => (acc2.1, some mdl, acc2.2.2)
        | some s => (acc2.1 ++ [s], some mdl, acc2.2.2)) (res0, w0, cs0) =
    (res0 ++ rs.filterMap (fun r => (env.fit (trainIdx r env.nSeqs) n).bind
        (fun mdl => env.score mdl (testIdx r env.nSeqs))),
     rs.foldl (fun w r => match env.fit (trainIdx r env.nSeqs) n with
        | some m => some m
        | none => w) w0,
     cs0 ++ rs.map (fun r => (trainIdx r env.nSeqs, n))) := by
  intro rs
  induction rs with
  | nil => intro res0 w0 cs0; simp
  | cons r rest ih =>
    intro res0 w0 cs0
    cases hf : env.fit (trainIdx r env.nSeqs) n with
    | none => simp [List.foldl_cons, hf, ih]
    | some mdl =>
      cases hs : env.score mdl (testIdx r env.nSeqs) with
      | none => simp [List.foldl_cons, hf, hs, ih]
      | some s => simp [List.foldl_cons, hf, hs, ih]

/-- The inner fold loop computes the derived per-candidate quantities. -/
theorem cvFolds_eq {M : Type} (env : CVEnv M) (n : ℕ) (w0 : Option M) :
    cvFolds env n w0 = (resOf env n, lastFitFrom env n w0, cvCallsN env n) := by
  have := cvFolds_general env n (kfoldRanges 3 env.nSeqs) [] w0 []
  simpa [cvFolds, resOf, lastFitFrom, cvCallsN] using this

/-- The `word_model` update fold factors through its starting value. -/
theorem lastFitFrom_factor {M : Type} (env : CVEnv M) (n : ℕ) :
    ∀ (rs : List (ℕ × ℕ)) (w0 : Option M),
    rs.foldl (fun w r => match env.fit (trainIdx r env.nSeqs) n with
        | some m => some m
        | none => w) w0 =
      match rs.foldl (fun w r => match env.fit (trainIdx r env.nSeqs) n with
        | some m => some m
        | none => w) (none : Option M) with
      | some m => some m
      | none => w0 := by
  intro rs
  induction rs with
  | nil => intro w0; simp
  | cons r rest ih =>
    intro w0
    rw [List.foldl_cons, List.foldl_cons]
    cases hf : env.fit (trainIdx r env.nSeqs) n with
    | none =>
      simp only [hf]
      exact ih w0
    | some mdl =>
      simp only [hf]
      rw [ih (some mdl)]
      cases hz : rest.foldl (fun w r' =>
          match env.fit (trainIdx r' env.nSeqs) n with
          | some m => some m
          | none => w) (none : Option M) with
      | none => rfl
      | some mm => rfl

/-- The `word_model` fold yields a value only from a successful fit (or
its starting value). -/
theorem lastFitFold_mem {M : Type} (env : CVEnv M) (n : ℕ) :
    ∀ (rs : List (ℕ × ℕ)) (w0 : Option M) (m : M),
    rs.foldl (fun w r => match env.fit (trainIdx r env.nSeqs) n with
        | some m' => some m'
        | none => w) w0 = some m →
    (∃ r ∈ rs, env.fit (trainIdx r env.nSeqs) n = some m) ∨ w0 = some m := by
  intro rs
  induction rs with
  | nil => intro w0 m h; exact Or.inr h
  | cons r rest ih =>
    intro w0 m h
    rw [List.foldl_cons] at h
    cases hf : env.fit (trainIdx r env.nSeqs) n with
    | none =>
      rw [hf] at h
      rcases ih w0 m h with ⟨r', hr', he⟩ | he
      · exact Or.inl ⟨r', List.mem_cons_of_mem _ hr', he⟩
      · exact Or.inr he
    | some mdl =>
      rw [hf] at h
      rcases ih (some mdl) m h with ⟨r', hr', he⟩ | he
      · exact Or.inl ⟨r', List.mem_cons_of_mem _ hr', he⟩
      · exact Or.inl ⟨r, List.mem_cons_self _ _, by rw [hf, he]⟩

/-- A successful fold at `n` forces the `word_model` fold to end on a
fitted model. -/
theorem lastFitOf_isSome {M : Type} (env : CVEnv M) (n : ℕ)
    (h : (resOf env n).isEmpty = false) : (lastFitOf env n).isSome = true := by
  have hne : resOf env n ≠ [] := by
    intro he
    rw [he] at h
    simp at h
  obtain ⟨s, hs⟩ := List.exists_mem_of_ne_nil _ hne
  rw [resOf] at hs
  rw [List.mem_filterMap] at hs
  obtain ⟨r, hr, hb⟩ := hs
  cases hf : env.fit (trainIdx r env.nSeqs) n with
  | none => rw [hf] at hb; cases hb
  | some mdl =>
    have hsome : ∀ (rs : List (ℕ × ℕ)) (w0 : Option M),
        (∃ r' ∈ rs, (env.fit (trainIdx r' env.nSeqs) n).isSome = true) →
        (rs.foldl (fun w r' => match env.fit (trainIdx r' env.nSeqs) n with
          | some m' => some m'
          | none => w) w0).isSome = true := by
      intro rs
      induction rs with
      | nil => intro w0 hex; simp at hex
      | cons r' rest ih =>
        intro w0 hex
        rw [List.foldl_cons]
        rcases hex with ⟨r2, hr2, hss⟩
        rcases List.mem_cons.mp hr2 with h0 | h0
        · subst h0
          cases hf2 : env.fit (trainIdx r2 env.nSeqs) n with
          | none => rw [hf2] at hss; simp at hss
          | some mdl2 =>
            show ((rest.foldl (fun w r3 =>
                match env.fit (trainIdx r3 env.nSeqs) n with
                | some m' => some m'
                | none => w) (some mdl2))).isSome = true
            rw [lastFitFrom_factor env n rest (some mdl2)]
            cases hz : rest.foldl (fun w r3 =>
                match env.fit (trainIdx r3 env.nSeqs) n with
                | some m' => some m'
                | none => w) (none : Option M) with
            | none => rfl
            | some mm => rfl
        · exact ih _ ⟨r2, h0, hss⟩
    exact hsome _ _ ⟨r, hr, by rw [hf]; rfl⟩

/-- When the folds at `n` collected a score, the `word_model` value after
them does not depend on its value before them. -/
theorem lastFitFrom_indep {M : Type} (env : CVEnv M) (n : ℕ) (w0 : Option M)
    (h : (resOf env n).isEmpty = false) :
    lastFitFrom env n w0 = lastFitOf env n := by
  have hs := lastFitOf_isSome env n h
  rw [lastFitFrom, lastFitFrom_factor env n _ w0]
  rw [lastFitOf, lastFitFrom] at hs ⊢
  cases hl : (kfoldRanges 3 env.nSeqs).foldl
      (fun w r => match env.fit (trainIdx r env.nSeqs) n with
        | some m' => some m'
        | none => w) (none : Option M) with
  | none => rw [hl] at hs; simp at hs
  | some mm => rfl

/-- With fewer sequences than folds, the outer loop breaks immediately,
leaving its state untouched. -/
theorem cvLoop_skip {M : Type} (env : CVEnv M) (h : env.nSeqs < 3) :
    ∀ (l : List ℕ) (st : (XVal × Option M) × Option M × List (List ℕ × ℕ)),
    cvLoop env l st = st := by
  intro l st
  cases l with
  | nil => rfl
  | cons n rest => simp [cvLoop, h]

/-- The outer CV loop is the running-maximum fold over the surviving
candidates, threading the `word_model` carry and logging three trainer
calls per candidate. -/
theorem cvLoop_eq {M : Type} (env : CVEnv M) (h3 : 3 ≤ env.nSeqs) :
    ∀ (l : List ℕ) (mp : XVal × Option M) (w0 : Option M)
      (cs : List (List ℕ × ℕ)),
    cvLoop env l (mp, w0, cs) =
      (runSel XVal.gt mp (cvCandsL env l), cvWmAfter env l w0,
       cs ++ cvCallsList env l) := by
  intro l
  induction l with
  | nil =>
    intro mp w0 cs
    simp [cvLoop, cvCandsL, cvCandsNL, cvWmAfter, cvCallsList, runSel]
  | cons n rest ih =>
    intro mp w0 cs
    have hnot : ¬ (env.nSeqs < 3) := by omega
    have hloop : cvLoop env (n :: rest) (mp, w0, cs) =
        cvLoop env rest (cvStepN env (mp, w0, cs) n) := by
      simp [cvLoop, hnot]
    rw [hloop]
    cases hre : (resOf env n).isEmpty with
    | true =>
      have hre' : resOf env n = [] := by simpa using hre
      have hstep : cvStepN env (mp, w0, cs) n =
          (mp, lastFitFrom env n w0, cs ++ cvCallsN env n) := by
        simp [cvStepN, cvFolds_eq, hre]
      rw [hstep, ih]
      simp [cvCandsL, cvCandsNL, hre', cvWmAfter, cvCallsList, cvCallsN,
        List.append_assoc]
    | false =>
      have hwm : lastFitFrom env n w0 = lastFitOf env n :=
        lastFitFrom_indep env n w0 hre
      have hstep : cvStepN env (mp, w0, cs) n =
          (selStep XVal.gt mp
            (XVal.fin ((resOf env n).sum / ((resOf env n).length : ℚ)),
             lastFitOf env n),
           lastFitOf env n, cs ++ cvCallsN env n) := by
        by_cases hgt : XVal.gt
            (XVal.fin ((resOf env n).sum / ((resOf env n).length : ℚ))) mp.1 = true
        · simp [cvStepN, cvFolds_eq, hre, hwm, selStep, hgt]
        · simp [cvStepN, cvFolds_eq, hre, hwm, selStep, hgt]
      rw [hstep, ih]
      have hre' : ¬ (resOf env n = []) := by simpa using hre
      have hcands : cvCandsL env (n :: rest) =
          (XVal.fin ((resOf env n).sum / ((resOf env n).length : ℚ)),
           lastFitOf env n) :: cvCandsL env rest := by
        simp [cvCandsL, cvCandsNL, hre']
      rw [hcands, runSel_cons]
      have hwma : cvWmAfter env (n :: rest) w0 =
          cvWmAfter env rest (lastFitOf env n) := by
        simp [cvWmAfter, List.foldl_cons, hwm]
      rw [hwma]
      simp [cvCallsList, cvCallsN, List.append_assoc]

/-- The `SelectorCV.select` method, rewritten through the loop-free
candidate description (for a word with enough sequences). -/
theorem selectCV_eq {M : Type} (env : CVEnv M) (h3 : 3 ≤ env.nSeqs) :
    selectCV env =
      (match (runSel XVal.gt (XVal.ninf, none) (cvCands env)).2 with
       | some m => some m
       | none => env.fallbackTrain env.n_constant,
       cvCallsList env (rangeL env.minN env.maxN)) := by
  unfold selectCV
  rw [cvLoop_eq env h3 (rangeL env.minN env.maxN) (XVal.ninf, none) none []]
  have hcc : cvCandsL env (rangeL env.minN env.maxN) = cvCands env := rfl
  rw [hcc]
  cases hb : (runSel XVal.gt (XVal.ninf, none) (cvCands env)).2 with
  | some m => simp [hb]
  | none => simp [hb]

/-! ## Claim C8 -/

/-- C8: for every models map and test set, `recognize` returns two
parallel lists, one entry per test item in test-set order; every score
table lists exactly the words of the models map in map order, with the
model's score for the item and negative infinity substituted for any
word whose model fails to score it.  No item and no word is omitted. -/
theorem c8_recognize_total {I M : Type} (score : M → I → Option ℚ)
    (models : List (Word × M)) (testSet : List I) :
    (recognize score models testSet).1.length = testSet.length ∧
    (recognize score models testSet).2.length = testSet.length ∧
    (recognize score models testSet).1 = testSet.map (fun x =>
      models.map (fun wm => (wm.1,
        match score wm.2 x with
        | some s => XVal.fin s
        | none => XVal.ninf))) := by
  refine ⟨by simp [recognize], by simp [recognize], ?_⟩
  unfold recognize
  simp only []
  congr 1
  funext x
  rw [recognizeItem, recItemLoop_table score x models [] (none, XVal.ninf)]
  simp

/-! ## Claim C1 (corrected) -/

/-- C1 counterexample: with a two-word models map whose iteration order
starts at "A" and a test item on which every model's scoring fails, the
emitted score table does hold negative infinity for every word, but the
best guess for the item is None, not the first word "A" of the map's
iteration order as the claim states. -/
theorem c1_counterexample :
    (recognize recFailScore recFailModels [()]).1 =
      [[("A", XVal.ninf), ("B", XVal.ninf)]] ∧
    (recognize recFailScore recFailModels [()]).2 = [none] ∧
    ([none] : List (Option Word)) ≠ [some "A"] := by
  refine ⟨rfl, rfl, by simp⟩

/-- C1 (amended): for every test item on which every model's scoring
fails, `recognize` still emits a score table containing negative
infinity for every word of the models map, and the best guess for that
item is the None label (no word): the initial sentinel comparison is
never reached when scoring raises, so no word is ever assigned. -/
theorem c1_all_fail {I M : Type} (score : M → I → Option ℚ)
    (models : List (Word × M)) (testSet : List I)
    (h : ∀ x ∈ testSet, ∀ wm ∈ models, score wm.2 x = none) :
    (recognize score models testSet).1 =
      testSet.map (fun _ => models.map (fun wm => (wm.1, XVal.ninf))) ∧
    (recognize score models testSet).2 = testSet.map (fun _ => none) := by
  constructor
  · unfold recognize
    simp only []
    apply List.map_congr_left
    intro x hx
    rw [recognizeItem,
      recItemLoop_allFail score x models [] (none, XVal.ninf) (h x hx)]
    simp
  · unfold recognize
    simp only []
    apply List.map_congr_left
    intro x hx
    rw [recognizeItem,
      recItemLoop_allFail score x models [] (none, XVal.ninf) (h x hx)]

/-- C1 witness: the amended claim evaluated on the concrete all-failing
two-word environment. -/
theorem c1_witness :
    (recognize recFailScore recFailModels [()]).1 =
      [()].map (fun _ => recFailModels.map (fun wm => (wm.1, XVal.ninf))) ∧
    (recognize recFailScore recFailModels [()]).2 = [()].map (fun _ => none) :=
  c1_all_fail recFailScore recFailModels [()] (fun x hx wm hwm => rfl)

/-! ## Claim C2 (corrected) -/

/-- C2 counterexample: on an environment where every training attempt
fails, `SelectorBIC.select` returns None — a null result — because
`base_model` catches the trainer failure and returns None instead of
letting it propagate; so select() does not always return a non-null
model. -/
theorem c2_counterexample : selectB bicFailEnv = none := rfl

/-- C2 (amended): for every selector strategy, when no candidate in the
range survives, select() returns exactly the result of the fallback
training at the constant state count — which is None when even that
fallback training fails (the failure is swallowed by `base_model`, not
propagated). -/
theorem c2_fallback_result :
    (∀ (M : Type) (env : BICEnv M),
      (runSel XVal.lt (XVal.pinf, none) (bicCands env)).2 = none →
      selectB env = env.train env.n_constant) ∧
    (∀ (M : Type) (env : DICEnv M) (stored : Option (Cache M)),
      (runSel XVal.gt (XVal.ninf, none)
        (dicCands env (prepare env stored).1)).2 = none →
      (selectDIC env stored).1 = env.fit env.this_word env.n_constant) ∧
    (∀ (M : Type) (env : CVEnv M), 3 ≤ env.nSeqs →
      (runSel XVal.gt (XVal.ninf, none) (cvCands env)).2 = none →
      (selectCV env).1 = env.fallbackTrain env.n_constant) ∧
    (∀ (M : Type) (env : CVEnv M), env.nSeqs < 3 →
      (selectCV env).1 = env.fallbackTrain env.n_constant) ∧
    (∀ (M : Type) (env : ConstEnv M),
      selectConst env = env.train env.n_constant) := by
  refine ⟨?_, ?_, ?_, ?_, ?_⟩
  · intro M env h
    simp [selectB, h]
  · intro M env stored h
    simp only [selectDIC, h]
  · intro M env h3 h
    rw [selectCV_eq env h3]
    simp [h]
  · intro M env h
    unfold selectCV
    rw [cvLoop_skip env h]
  · intro M env
    rfl

/-- C2 witness: the amended claim evaluated on concrete all-failing
environments, one per strategy. -/
theorem c2_witness :
    selectB bicFailEnv = bicFailEnv.train bicFailEnv.n_constant ∧
    (selectDIC dicFailEnv none).1 =
      dicFailEnv.fit dicFailEnv.this_word dicFailEnv.n_constant ∧
    (selectCV cvFailEnv).1 = cvFailEnv.fallbackTrain cvFailEnv.n_constant ∧
    (selectCV cvSmallEnv).1 = cvSmallEnv.fallbackTrain cvSmallEnv.n_constant ∧
    selectConst constFailEnv = constFailEnv.train constFailEnv.n_constant :=
  ⟨c2_fallback_result.1 Unit bicFailEnv (by decide),
   c2_fallback_result.2.1 Unit dicFailEnv none (by decide),
   c2_fallback_result.2.2.1 Unit cvFailEnv (by decide) (by decide),
   c2_fallback_result.2.2.2.1 ℕ cvSmallEnv (by decide),
   c2_fallback_result.2.2.2.2 Unit constFailEnv⟩

/-! ## Claim C5 (corrected) -/

/-- C5 counterexample: after a first `SelectorDIC.select` call populates
the cache (which then holds an entry for ("A", 3)), a second call with
the populated cache still performs one trainer call, and it is on the
cached pair ("A", 3): the constant-model fallback retrains it.  The
trainer call count is therefore not unchanged across repeated
selections. -/
theorem c5_counterexample :
    (selectDIC dicFailEnv ((selectDIC dicFailEnv none).2.1)).2.2 =
      [("A", 3)] ∧
    alookup (("A" : Word), 3) (prepareCache dicFailEnv) ≠ none := by
  exact ⟨by decide, by decide⟩

/-- C5 (amended): the cache is populated at most once per process: a
`prepare` call that finds the class variable set returns that cache
unchanged, and a repeated `select` call performs no cache-population
training at all — the only trainer call it may still perform is the
single constant-fallback `base_model(n_constant)` call made when no
candidate survives (which may retrain a cached pair). -/
theorem c5_cache_once (M : Type) (env : DICEnv M) (d : Cache M) :
    prepare env (some d) = (d, some d) ∧
    ((selectDIC env (some d)).2.2 = [] ∨
     (selectDIC env (some d)).2.2 = [(env.this_word, env.n_constant)]) := by
  refine ⟨rfl, ?_⟩
  unfold selectDIC
  cases hb : (runSel XVal.gt (XVal.ninf, none)
      (dicCands env (prepare env (some d)).1)).2 with
  | some m =>
    left
    simp [hb]
  | none =>
    right
    simp [hb]

/-! ## Claim C6 -/

/-- C6: for every word whose sequence count is strictly below the fold
count 3, `SelectorCV.select` abandons the whole state-count search
immediately: it makes no trainer call at any candidate and returns the
constant-model fallback. -/
theorem c6_insufficient_sequences (M : Type) (env : CVEnv M)
    (h : env.nSeqs < 3) :
    selectCV env = (env.fallbackTrain env.n_constant, []) := by
  unfold selectCV
  rw [cvLoop_skip env h]

/-- C6 witness: the claim evaluated on a concrete two-sequence word. -/
theorem c6_witness :
    selectCV cvSmallEnv = (cvSmallEnv.fallbackTrain cvSmallEnv.n_constant, []) :=
  c6_insufficient_sequences ℕ cvSmallEnv (by decide)

/-- The class-variable component returned by `selectDIC` is the one
computed by `prepare`, in both match branches. -/
theorem selectDIC_stored_eq {M : Type} (env : DICEnv M)
    (stored : Option (Cache M)) :
    (selectDIC env stored).2.1 = (prepare env stored).2 := by
  unfold selectDIC
  cases hb : (runSel XVal.gt (XVal.ninf, none)
      (dicCands env (prepare env stored).1)).2 with
  | some m => simp [hb]
  | none => simp [hb]

/-- The model returned by `selectDIC`, as a function of the winner of
the running-maximum fold over the surviving candidates. -/
theorem selectDIC_fst {M : Type} (env : DICEnv M)
    (stored : Option (Cache M)) :
    (selectDIC env stored).1 =
      (match (runSel XVal.gt (XVal.ninf, none)
          (dicCands env (prepare env stored).1)).2 with
       | some m => some m
       | none => env.fit env.this_word env.n_constant) := by
  unfold selectDIC
  cases hb : (runSel XVal.gt (XVal.ninf, none)
      (dicCands env (prepare env stored).1)).2 with
  | some m => simp [hb]
  | none => simp [hb]

/-! ## Claim C9 -/

/-- C9: selection is deterministic: a second `SelectorDIC.select` call
with identical inputs, run on the class-variable state left by the
first, returns the same model, so it scores identically under any fixed
evaluation; the BIC and CV selectors are pure functions of their inputs,
so repeated calls coincide trivially. -/
theorem c9_select_deterministic (M : Type) (env : DICEnv M)
    (benv : BICEnv M) (cenv : CVEnv M) :
    (selectDIC env ((selectDIC env none).2.1)).1 = (selectDIC env none).1 ∧
    (∀ f : Option M → ℚ,
      f ((selectDIC env ((selectDIC env none).2.1)).1) =
      f ((selectDIC env none).1)) ∧
    selectB benv = selectB benv ∧
    selectCV cenv = selectCV cenv := by
  have hst : (selectDIC env none).2.1 = (prepare env none).2 :=
    selectDIC_stored_eq env none
  have hcaches : (prepare env (prepare env none).2).1 = (prepare env none).1 := by
    cases he : (prepareCache env).isEmpty with
    | true => simp [prepare, he]
    | false => simp [prepare, he]
  have h1 : (selectDIC env ((selectDIC env none).2.1)).1 =
      (selectDIC env none).1 := by
    rw [selectDIC_fst, selectDIC_fst, hst, hcaches]
  exact ⟨h1, fun f => by rw [h1], rfl, rfl⟩

/-! ## Claim C10 -/

/-- C10: once the class-level cache is set, `prepare` on any later
instance returns it unchanged regardless of that instance's range; a
later `select` call performs no training beyond the possible constant
fallback, and any candidate whose target entry misses the cache is
silently skipped by the search (the lookup failure is caught). -/
theorem c10_stale_cache (M : Type) (env : DICEnv M) (d : Cache M) :
    prepare env (some d) = (d, some d) ∧
    (selectDIC env (some d)).2.1 = some d ∧
    (∀ p ∈ (selectDIC env (some d)).2.2,
       p = (env.this_word, env.n_constant)) ∧
    (∀ n, alookup (env.this_word, n) d = none → dicStep env d n = none) := by
  refine ⟨rfl, ?_, ?_, ?_⟩
  · rw [selectDIC_stored_eq]
    rfl
  · intro p hp
    unfold selectDIC at hp
    cases hb : (runSel XVal.gt (XVal.ninf, none)
        (dicCands env (prepare env (some d)).1)).2 with
    | some m =>
      simp [hb] at hp
    | none =>
      simp [hb] at hp
      exact hp
  · intro n h
    simp [dicStep, h]

/-- C10 witness: the claim instantiated on a concrete environment and a
state count outside the cached range. -/
theorem c10_witness :
    prepare dicFailEnv (some (prepareCache dicFailEnv)) =
      (prepareCache dicFailEnv, some (prepareCache dicFailEnv)) ∧
    dicStep dicFailEnv (prepareCache dicFailEnv) 7 = none :=
  ⟨(c10_stale_cache Unit dicFailEnv (prepareCache dicFailEnv)).1,
   (c10_stale_cache Unit dicFailEnv (prepareCache dicFailEnv)).2.2.2 7
     (by decide)⟩

/-! ## Claim C3 -/

/-- Computation of one BIC loop iteration when training and scoring
succeed on nonempty data. -/
theorem bicStep_eq {M : Type} (env : BICEnv M) (n : ℕ) (m : M) (s : ℚ)
    (row0 : List ℚ) (h1 : env.train n = some m) (h2 : env.score m = some s)
    (h3 : env.X.head? = some row0) :
    bicStep env n = some (XVal.fin (-2 * s +
      ((n : ℚ) * ((n : ℚ) - 1) + 2 * (row0.length : ℚ) * (n : ℚ)) *
        env.log env.X.length), some m) := by
  simp [bicStep, h1, h2, h3]

/-- A candidate whose training fails is skipped. -/
theorem bicStep_trainFail {M : Type} (env : BICEnv M) (n : ℕ)
    (h : env.train n = none) : bicStep env n = none := by
  simp [bicStep, h]

/-- A candidate whose scoring fails is skipped. -/
theorem bicStep_scoreFail {M : Type} (env : BICEnv M) (n : ℕ) (m : M)
    (h1 : env.train n = some m) (h2 : env.score m = none) :
    bicStep env n = none := by
  simp [bicStep, h1, h2]

/-- Every surviving BIC candidate carries a finite BIC value and a
trained model. -/
theorem bicStep_shape {M : Type} (env : BICEnv M) (n : ℕ) (c : XVal × Option M)
    (h : bicStep env n = some c) :
    (∃ q, c.1 = XVal.fin q) ∧ ∃ m, c.2 = some m := by
  cases ht : env.train n with
  | none => rw [bicStep_trainFail env n ht] at h; cases h
  | some m =>
    cases hs : env.score m with
    | none => rw [bicStep_scoreFail env n m ht hs] at h; cases h
    | some s =>
      cases hh : env.X.head? with
      | none =>
        have : bicStep env n = none := by simp [bicStep, ht, hs, hh]
        rw [this] at h
        cases h
      | some row0 =>
        rw [bicStep_eq env n m s row0 ht hs hh] at h
        have hc := Option.some.inj h
        rw [← hc]
        exact ⟨⟨_, rfl⟩, ⟨m, rfl⟩⟩

/-- C3: for every candidate n whose training and scoring succeed (and
nonempty data), the BIC search computes
BIC(n) = -2 logL + (n(n-1) + 2 F n) ln N with F the feature
dimensionality (length of the first data row) and N the number of
frames; a candidate whose training or scoring fails is skipped (the
search is not aborted: every surviving candidate still enters the
comparison); no surviving candidate's BIC is strictly below the
winner's, and when any candidate survives, select() returns the model
of the first-encountered minimum (strict less-than comparison), else
the constant fallback. -/
theorem c3_bic (M : Type) (env : BICEnv M) :
    (∀ (n : ℕ) (m : M) (s : ℚ) (row0 : List ℚ),
      env.train n = some m → env.score m = some s → env.X.head? = some row0 →
      bicStep env n = some (XVal.fin (-2 * s +
        ((n : ℚ) * ((n : ℚ) - 1) + 2 * (row0.length : ℚ) * (n : ℚ)) *
          env.log env.X.length), some m)) ∧
    (∀ n, env.train n = none → bicStep env n = none) ∧
    (∀ (n : ℕ) (m : M), env.train n = some m → env.score m = none →
      bicStep env n = none) ∧
    (∀ c ∈ bicCands env,
      XVal.lt c.1 (runSel XVal.lt (XVal.pinf, none) (bicCands env)).1 = false) ∧
    (bicCands env = [] → selectB env = env.train env.n_constant) ∧
    (bicCands env ≠ [] → ∃ i, ∃ hi : i < (bicCands env).length,
      runSel XVal.lt (XVal.pinf, none) (bicCands env) =
        (bicCands env).get ⟨i, hi⟩ ∧
      XVal.lt ((bicCands env).get ⟨i, hi⟩).1
        (runSel XVal.lt (XVal.pinf, none) ((bicCands env).take i)).1 = true ∧
      (∀ j, ∀ hj : j < (bicCands env).length, i < j →
        XVal.lt ((bicCands env).get ⟨j, hj⟩).1
          ((bicCands env).get ⟨i, hi⟩).1 = false) ∧
      selectB env = ((bicCands env).get ⟨i, hi⟩).2) := by
  refine ⟨fun n m s row0 h1 h2 h3 => bicStep_eq env n m s row0 h1 h2 h3,
    fun n h => bicStep_trainFail env n h,
    fun n m h1 h2 => bicStep_scoreFail env n m h1 h2,
    (runSel_notBeaten XVal.lt XVal.lt_trans' XVal.lt_irrefl
      (bicCands env) (XVal.pinf, none)).1, ?_, ?_⟩
  · intro h
    unfold selectB
    rw [h]
    rfl
  · intro hne
    rcases runSel_cases XVal.lt (bicCands env) (XVal.pinf, none) with
      ⟨heq, hall⟩ | ⟨i, hi, heq, hbeat, haft⟩
    · obtain ⟨c, hc⟩ := List.exists_mem_of_ne_nil _ hne
      obtain ⟨n, hn, hstep⟩ := List.mem_filterMap.mp hc
      obtain ⟨⟨q, hq⟩, _⟩ := bicStep_shape env n c hstep
      have hv := hall c hc
      rw [hq] at hv
      cases hv
    · refine ⟨i, hi, heq, hbeat, haft, ?_⟩
      have hmem : (bicCands env).get ⟨i, hi⟩ ∈ bicCands env :=
        List.get_mem _ _ _
      obtain ⟨n, hn, hstep⟩ := List.mem_filterMap.mp hmem
      obtain ⟨_, ⟨m, hm⟩⟩ := bicStep_shape env n _ hstep
      unfold selectB
      rw [heq, hm]

/-- C3 witness: the formula and the first-minimum selection on the
rigged environment, where BIC(n) = n^2 + n is minimal at n = 2. -/
theorem c3_witness :
    bicStep bicWitEnv 2 = some (XVal.fin (-2 * ((2 : ℕ) : ℚ) +
      (((2 : ℕ) : ℚ) * (((2 : ℕ) : ℚ) - 1) +
        2 * (([(0 : ℚ), 1] : List ℚ).length : ℚ) * ((2 : ℕ) : ℚ)) *
        bicWitEnv.log bicWitEnv.X.length), some 2) ∧
    (∃ i, ∃ hi : i < (bicCands bicWitEnv).length,
      runSel XVal.lt (XVal.pinf, none) (bicCands bicWitEnv) =
        (bicCands bicWitEnv).get ⟨i, hi⟩ ∧
      XVal.lt ((bicCands bicWitEnv).get ⟨i, hi⟩).1
        (runSel XVal.lt (XVal.pinf, none)
          ((bicCands bicWitEnv).take i)).1 = true ∧
      (∀ j, ∀ hj : j < (bicCands bicWitEnv).length, i < j →
        XVal.lt ((bicCands bicWitEnv).get ⟨j, hj⟩).1
          ((bicCands bicWitEnv).get ⟨i, hi⟩).1 = false) ∧
      selectB bicWitEnv = ((bicCands bicWitEnv).get ⟨i, hi⟩).2) :=
  ⟨(c3_bic ℕ bicWitEnv).1 2 2 2 [0, 1] rfl rfl rfl,
   (c3_bic ℕ bicWitEnv).2.2.2.2.2 (by decide)⟩

/-! ## Claim C4 -/

/-- C4: over the populated cache, for every candidate n at which the
target word succeeded, the DIC loop computes
DIC(n) = logL(target, n) - mean of the cached scores of the words
different from the target whose entry is not the failure sentinel, and
carries the target's cached model; the winner of the running maximum is
always a candidate at which the target word succeeded (a failed target
is never selected) and its cached model is what select() returns; no
surviving candidate strictly exceeds the winner (strict greater-than),
and when some candidate beats the negative-infinity sentinel, the
winner is the first-encountered maximum. -/
theorem c4_dic (M : Type) (env : DICEnv M) :
    (∀ (n : ℕ) (m : M) (s : ℚ),
      alookup (env.this_word, n) (prepareCache env) =
        some (some m, XVal.fin s) →
      dicStep env (prepareCache env) n =
        some (XVal.sub (XVal.fin s)
          (XVal.mean (dicVals env (prepareCache env) n)), some m)) ∧
    (∀ m : M,
      (runSel XVal.gt (XVal.ninf, none)
        (dicCands env (prepareCache env))).2 = some m →
      ∃ n s, n ∈ rangeL env.minN env.maxN ∧
        alookup (env.this_word, n) (prepareCache env) =
          some (some m, XVal.fin s)) ∧
    (∀ c ∈ dicCands env (prepareCache env),
      XVal.gt c.1 (runSel XVal.gt (XVal.ninf, none)
        (dicCands env (prepareCache env))).1 = false) ∧
    (∀ m : M,
      (runSel XVal.gt (XVal.ninf, none)
        (dicCands env (prepareCache env))).2 = some m →
      (selectDIC env none).1 = some m) ∧
    ((∃ c ∈ dicCands env (prepareCache env), XVal.gt c.1 XVal.ninf = true) →
      ∃ i, ∃ hi : i < (dicCands env (prepareCache env)).length,
        runSel XVal.gt (XVal.ninf, none) (dicCands env (prepareCache env)) =
          (dicCands env (prepareCache env)).get ⟨i, hi⟩ ∧
        XVal.gt ((dicCands env (prepareCache env)).get ⟨i, hi⟩).1
          (runSel XVal.gt (XVal.ninf, none)
            ((dicCands env (prepareCache env)).take i)).1 = true ∧
        ∀ j, ∀ hj : j < (dicCands env (prepareCache env)).length, i < j →
          XVal.gt ((dicCands env (prepareCache env)).get ⟨j, hj⟩).1
            ((dicCands env (prepareCache env)).get ⟨i, hi⟩).1 = false) := by
  have hwin : ∀ m : M,
      (runSel XVal.gt (XVal.ninf, none)
        (dicCands env (prepareCache env))).2 = some m →
      ∃ n s, n ∈ rangeL env.minN env.maxN ∧
        alookup (env.this_word, n) (prepareCache env) =
          some (some m, XVal.fin s) := by
    intro m hm
    rcases runSel_cases XVal.gt (dicCands env (prepareCache env))
        (XVal.ninf, none) with ⟨heq, hall⟩ | ⟨i, hi, heq, hbeat, haft⟩
    · rw [heq] at hm
      cases hm
    · rw [heq] at hm
      have hmem : (dicCands env (prepareCache env)).get ⟨i, hi⟩ ∈
          dicCands env (prepareCache env) := List.get_mem _ _ _
      obtain ⟨n, hn, entry, hl, hc⟩ := dicCands_mem env _ _ hmem
      rw [hc] at hm
      have hentry := alookup_prepareCache env _ _ _ hl
      rcases trainEntry_shape env env.this_word n with hsh | ⟨m', s, hsh⟩
      · rw [hentry, hsh] at hm
        cases hm
      · rw [hentry, hsh] at hm
        have hm' := Option.some.inj hm
        refine ⟨n, s, hn, ?_⟩
        rw [hl, hentry, hsh, hm']
  refine ⟨?_, hwin, ?_, ?_, ?_⟩
  · intro n m s h
    have := dicStep_prepare env n (some m, XVal.fin s) h
    simpa using this
  · exact (runSel_notBeaten XVal.gt XVal.gt_trans XVal.gt_irrefl
      (dicCands env (prepareCache env)) (XVal.ninf, none)).1
  · intro m hm
    rw [selectDIC_fst env none]
    have hpre : (prepare env none).1 = prepareCache env := rfl
    rw [hpre, hm]
  · intro hex
    rcases runSel_cases XVal.gt (dicCands env (prepareCache env))
        (XVal.ninf, none) with ⟨heq, hall⟩ | ⟨i, hi, heq, hbeat, haft⟩
    · obtain ⟨c, hc, hgt⟩ := hex
      have := hall c hc
      rw [this] at hgt
      cases hgt
    · exact ⟨i, hi, heq, hbeat, haft⟩

/-- C4 witness: the DIC formula, winner provenance and selection result
on a rigged two-word environment where the target scores 10 and the
other word 4 at the single candidate n = 2. -/
theorem c4_witness :
    dicStep dicWitEnv (prepareCache dicWitEnv) 2 =
      some (XVal.sub (XVal.fin 10)
        (XVal.mean (dicVals dicWitEnv (prepareCache dicWitEnv) 2)), some 2) ∧
    (∃ n s, n ∈ rangeL dicWitEnv.minN dicWitEnv.maxN ∧
      alookup (dicWitEnv.this_word, n) (prepareCache dicWitEnv) =
        some (some 2, XVal.fin s)) ∧
    (selectDIC dicWitEnv none).1 = some 2 :=
  ⟨(c4_dic ℕ dicWitEnv).1 2 2 10 (by decide),
   (c4_dic ℕ dicWitEnv).2.1 2 (by decide),
   (c4_dic ℕ dicWitEnv).2.2.2.1 2 (by decide)⟩

/-! ## Claim C7 -/

/-- Structure of a surviving CV candidate: its state count is in the
searched list, some fold succeeded there, its compared value is the
average of the successful folds' held-out scores and its model is the
last fitted model of that state count. -/
theorem cvCandsNL_shape {M : Type} (env : CVEnv M) (l : List ℕ)
    (c : ℕ × XVal × Option M) (hc : c ∈ cvCandsNL env l) :
    c.1 ∈ l ∧ (resOf env c.1).isEmpty = false ∧
    c.2 = (XVal.fin ((resOf env c.1).sum / ((resOf env c.1).length : ℚ)),
           lastFitOf env c.1) := by
  simp only [cvCandsNL, List.mem_filterMap] at hc
  obtain ⟨n, hn, hif⟩ := hc
  cases hre : (resOf env n).isEmpty with
  | true => rw [if_pos hre] at hif; cases hif
  | false =>
    rw [if_neg (by rw [hre]; exact Bool.false_ne_true)] at hif
    have hc' := Option.some.inj hif
    rw [← hc']
    exact ⟨hn, hre, rfl⟩

/-- The last fitted model at a state count comes from one of its folds. -/
theorem lastFitOf_src {M : Type} (env : CVEnv M) (n : ℕ) (m : M)
    (h : lastFitOf env n = some m) :
    ∃ r, r ∈ kfoldRanges 3 env.nSeqs ∧
      env.fit (trainIdx r env.nSeqs) n = some m := by
  rcases lastFitFold_mem env n (kfoldRanges 3 env.nSeqs) none m h with
    ⟨r, hr, he⟩ | he
  · exact ⟨r, hr, he⟩
  · cases he

/-- C7: for a word with at least as many sequences as the fold count,
every candidate with a successful fold enters the search carrying the
average of its successful folds' held-out scores; no surviving
candidate strictly exceeds the winner of the running maximum; with no
surviving candidate select() falls back to the constant model, and
otherwise it returns the model of the first-encountered maximum
average (strict greater-than), which is the last model fitted at the
winning state count — a model trained at that state count, not at a
different one. -/
theorem c7_cv (M : Type) (env : CVEnv M) (h3 : 3 ≤ env.nSeqs) :
    (∀ n, n ∈ rangeL env.minN env.maxN → (resOf env n).isEmpty = false →
      (n, XVal.fin ((resOf env n).sum / ((resOf env n).length : ℚ)),
       lastFitOf env n) ∈ cvCandsN env) ∧
    (∀ c ∈ cvCands env,
      XVal.gt c.1 (runSel XVal.gt (XVal.ninf, none) (cvCands env)).1 = false) ∧
    (cvCands env = [] → (selectCV env).1 = env.fallbackTrain env.n_constant) ∧
    (cvCands env ≠ [] → ∃ i, ∃ hi : i < (cvCandsN env).length,
      runSel XVal.gt (XVal.ninf, none) (cvCands env) =
        ((cvCandsN env).get ⟨i, hi⟩).2 ∧
      XVal.gt (((cvCandsN env).get ⟨i, hi⟩).2).1
        (runSel XVal.gt (XVal.ninf, none) ((cvCands env).take i)).1 = true ∧
      (∀ j, ∀ hj : j < (cvCandsN env).length, i < j →
        XVal.gt (((cvCandsN env).get ⟨j, hj⟩).2).1
          (((cvCandsN env).get ⟨i, hi⟩).2).1 = false) ∧
      (selectCV env).1 = ((cvCandsN env).get ⟨i, hi⟩).2.2 ∧
      ((cvCandsN env).get ⟨i, hi⟩).2.2 =
        lastFitOf env ((cvCandsN env).get ⟨i, hi⟩).1 ∧
      (∃ m, ((cvCandsN env).get ⟨i, hi⟩).2.2 = some m ∧
        ∃ r, r ∈ kfoldRanges 3 env.nSeqs ∧
          env.fit (trainIdx r env.nSeqs)
            ((cvCandsN env).get ⟨i, hi⟩).1 = some m)) := by
  have hlen : (cvCands env).length = (cvCandsN env).length := by
    simp [cvCands]
  have hget : ∀ (j : ℕ) (hj : j < (cvCandsN env).length),
      (cvCands env).get ⟨j, by rw [hlen]; exact hj⟩ =
        ((cvCandsN env).get ⟨j, hj⟩).2 := by
    intro j hj
    simp [cvCands, List.getElem_map]
  refine ⟨?_, ?_, ?_, ?_⟩
  · intro n hn hre
    simp only [cvCandsN, cvCandsNL, List.mem_filterMap]
    refine ⟨n, hn, ?_⟩
    rw [if_neg (by rw [hre]; exact Bool.false_ne_true)]
  · exact (runSel_notBeaten XVal.gt XVal.gt_trans XVal.gt_irrefl
      (cvCands env) (XVal.ninf, none)).1
  · intro h
    rw [selectCV_eq env h3]
    rw [h]
    rfl
  · intro hne
    rcases runSel_cases XVal.gt (cvCands env) (XVal.ninf, none) with
      ⟨heq, hall⟩ | ⟨i, hi', heq, hbeat, haft⟩
    · obtain ⟨c, hc⟩ := List.exists_mem_of_ne_nil _ hne
      obtain ⟨cN, hcN, hcc⟩ := List.mem_map.mp hc
      obtain ⟨_, _, hsh⟩ := cvCandsNL_shape env _ cN hcN
      have := hall c hc
      rw [← hcc, hsh] at this
      cases this
    · have hi : i < (cvCandsN env).length := by rw [← hlen]; exact hi'
      have hgi : (cvCands env).get ⟨i, hi'⟩ = ((cvCandsN env).get ⟨i, hi⟩).2 :=
        hget i hi
      have hmemN : (cvCandsN env).get ⟨i, hi⟩ ∈ cvCandsN env :=
        List.get_mem _ _ _
      obtain ⟨hn, hre, hsh⟩ := cvCandsNL_shape env _ _ hmemN
      have hfit : (lastFitOf env ((cvCandsN env).get ⟨i, hi⟩).1).isSome = true :=
        lastFitOf_isSome env _ hre
      obtain ⟨m, hm⟩ := Option.isSome_iff_exists.mp hfit
      refine ⟨i, hi, ?_, ?_, ?_, ?_, ?_, ?_⟩
      · rw [heq, hgi]
      · rw [← hgi]
        exact hbeat
      · intro j hj hij
        have hj' : j < (cvCands env).length := by rw [hlen]; exact hj
        have := haft j hj' hij
        rw [hget j hj, hget i hi] at this
        exact this
      · rw [selectCV_eq env h3]
        rw [heq, hgi]
        have hmodel : (((cvCandsN env).get ⟨i, hi⟩).2).2 = some m := by
          rw [hsh]
          exact hm
        rw [hmodel]
      · rw [hsh]
      · refine ⟨m, ?_, ?_⟩
        · rw [hsh]
          exact hm
        · exact lastFitOf_src env _ m hm

/-- C7 witness: the claim instantiated on a rigged environment whose
held-out average equals the state count (peaking at n = 3), and the
fallback branch on an all-failing environment. -/
theorem c7_witness :
    ((3 : ℕ), XVal.fin ((resOf cvWitEnv 3).sum / ((resOf cvWitEnv 3).length : ℚ)),
      lastFitOf cvWitEnv 3) ∈ cvCandsN cvWitEnv ∧
    (selectCV cvFailEnv).1 = cvFailEnv.fallbackTrain cvFailEnv.n_constant ∧
    (∃ i, ∃ hi : i < (cvCandsN cvWitEnv).length,
      runSel XVal.gt (XVal.ninf, none) (cvCands cvWitEnv) =
        ((cvCandsN cvWitEnv).get ⟨i, hi⟩).2 ∧
      XVal.gt (((cvCandsN cvWitEnv).get ⟨i, hi⟩).2).1
        (runSel XVal.gt (XVal.ninf, none) ((cvCands cvWitEnv).take i)).1 = true ∧
      (∀ j, ∀ hj : j < (cvCandsN cvWitEnv).length, i < j →
        XVal.gt (((cvCandsN cvWitEnv).get ⟨j, hj⟩).2).1
          (((cvCandsN cvWitEnv).get ⟨i, hi⟩).2).1 = false) ∧
      (selectCV cvWitEnv).1 = ((cvCandsN cvWitEnv).get ⟨i, hi⟩).2.2 ∧
      ((cvCandsN cvWitEnv).get ⟨i, hi⟩).2.2 =
        lastFitOf cvWitEnv ((cvCandsN cvWitEnv).get ⟨i, hi⟩).1 ∧
      (∃ m, ((cvCandsN cvWitEnv).get ⟨i, hi⟩).2.2 = some m ∧
        ∃ r, r ∈ kfoldRanges 3 cvWitEnv.nSeqs ∧
          cvWitEnv.fit (trainIdx r cvWitEnv.nSeqs)
            ((cvCandsN cvWitEnv).get ⟨i, hi⟩).1 = some m)) :=
  ⟨(c7_cv ℕ cvWitEnv (by decide)).1 3 (by decide) (by decide),
   (c7_cv Unit cvFailEnv (by decide)).2.2.1 (by decide),
   (c7_cv ℕ cvWitEnv (by decide)).2.2.2 (by decide)⟩
